import Mathlib

/-!
Shallow embedding of the deterministic data-processing core of `src/app.py`
(a Flask app forecasting next-hour PM2.5 for Riyadh and mapping it to an AQI
category): the PM2.5 → AQI mapper, the feature builder, the time-series
normalizer and the predict handler, together with theorems checking the
specification's claims.

Modelling conventions:
* Python floats are modelled as exact rationals `ℚ`; `NaN` / missing cells
  are modelled as `Option ℚ` with `none` for missing.
* Raw timestamps are modelled as minutes since the epoch (`ℤ`); flooring to
  the hour (`.dt.floor("h")`) is floor division by 60, so hour keys are `ℤ`
  hour numbers and the hourly grid advances by 1 per hour.
* Python's `round` is round-half-to-even (`pythonRound`).
-/

/-- Python's built-in `round` applied to a rational: nearest integer, ties to
even (banker's rounding), as used by `round(aqi)` in `pm25_to_aqi`. -/
def pythonRound (q : ℚ) : ℤ :=
  if q - ⌊q⌋ < 1/2 then ⌊q⌋
  else if 1/2 < q - ⌊q⌋ then ⌊q⌋ + 1
  else if ⌊q⌋ % 2 = 0 then ⌊q⌋ else ⌊q⌋ + 1

theorem floor_le_pythonRound (q : ℚ) : ⌊q⌋ ≤ pythonRound q := by
  unfold pythonRound
  split_ifs <;> omega

theorem pythonRound_le_floor_add_one (q : ℚ) : pythonRound q ≤ ⌊q⌋ + 1 := by
  unfold pythonRound
  split_ifs <;> omega

theorem pythonRound_mono {a b : ℚ} (h : a ≤ b) : pythonRound a ≤ pythonRound b := by
  rcases lt_or_le ⌊a⌋ ⌊b⌋ with hf | hf
  · calc pythonRound a ≤ ⌊a⌋ + 1 := pythonRound_le_floor_add_one a
      _ ≤ ⌊b⌋ := by omega
      _ ≤ pythonRound b := floor_le_pythonRound b
  · have hfe : ⌊a⌋ = ⌊b⌋ := le_antisymm (Int.floor_le_floor h) hf
    unfold pythonRound
    rw [hfe]
    split_ifs <;> first | omega | linarith

/-- One row of the `_PM25_BREAKS` table: `(concentration-low,
concentration-high, index-low, index-high, category-label, category-class)`. -/
structure BreakT where
  Cl : ℚ
  Ch : ℚ
  Il : ℚ
  Ih : ℚ
  txt : String
  cls : String
deriving DecidableEq

/-- The fixed PM2.5 breakpoint table `_PM25_BREAKS` of `src/app.py`. -/
def _PM25_BREAKS : List BreakT :=
  [⟨0, 12, 0, 50, "جيد", "aqi-good"⟩,
   ⟨12.1, 35.4, 51, 100, "متوسط", "aqi-moderate"⟩,
   ⟨35.5, 55.4, 101, 150, "غير صحي للفئات الحساسة", "aqi-usg"⟩,
   ⟨55.5, 150.4, 151, 200, "غير صحي", "aqi-unhealthy"⟩,
   ⟨150.5, 250.4, 201, 300, "غير صحي جدًا", "aqi-very"⟩,
   ⟨250.5, 500.4, 301, 500, "خطِر", "aqi-hazardous"⟩]

/-- The `for ... if Cl <= ug <= Ch: ... return` loop of `pm25_to_aqi`:
first bucket of the table whose concentration range contains `u`. -/
def findBreak : List BreakT → ℚ → Option BreakT
  | [], _ => none
  | brk :: rest, u => if brk.Cl ≤ u ∧ u ≤ brk.Ch then some brk else findBreak rest u

/-- The in-bucket linear interpolation
`aqi = (Ih - Il) / (Ch - Cl) * (ug - Cl) + Il` of `pm25_to_aqi`. -/
def linScore (brk : BreakT) (u : ℚ) : ℚ :=
  (brk.Ih - brk.Il) / (brk.Ch - brk.Cl) * (u - brk.Cl) + brk.Il

/-- `pm25_to_aqi` of `src/app.py`.  A missing (`NaN`) input is `none`; the
result is `(aqi score, category label, category css class)`. -/
def pm25_to_aqi (ug : Option ℚ) : Option ℤ × String × String :=
  match ug with
  | none => (none, "غير معروف", "aqi-unknown")
  | some u =>
    match findBreak _PM25_BREAKS u with
    | some brk => (some (pythonRound (linScore brk u)), brk.txt, brk.cls)
    | none => (some 500, "خطِر", "aqi-hazardous")

/-- Characterisation of which bucket of the concrete table matches. -/
theorem findBreak_char {u : ℚ} {b : BreakT}
    (h : findBreak _PM25_BREAKS u = some b) :
    (b = ⟨0, 12, 0, 50, "جيد", "aqi-good"⟩ ∧ 0 ≤ u ∧ u ≤ 12) ∨
    (b = ⟨12.1, 35.4, 51, 100, "متوسط", "aqi-moderate"⟩ ∧ 12.1 ≤ u ∧ u ≤ 35.4) ∨
    (b = ⟨35.5, 55.4, 101, 150, "غير صحي للفئات الحساسة", "aqi-usg"⟩ ∧ 35.5 ≤ u ∧ u ≤ 55.4) ∨
    (b = ⟨55.5, 150.4, 151, 200, "غير صحي", "aqi-unhealthy"⟩ ∧ 55.5 ≤ u ∧ u ≤ 150.4) ∨
    (b = ⟨150.5, 250.4, 201, 300, "غير صحي جدًا", "aqi-very"⟩ ∧ 150.5 ≤ u ∧ u ≤ 250.4) ∨
    (b = ⟨250.5, 500.4, 301, 500, "خطِر", "aqi-hazardous"⟩ ∧ 250.5 ≤ u ∧ u ≤ 500.4) := by
  simp only [_PM25_BREAKS, findBreak] at h
  split_ifs at h with h1 h2 h3 h4 h5 h6 <;>
    first
      | (injection h with h; exact Or.inl ⟨h.symm, by assumption⟩)
      | (injection h with h; exact Or.inr (Or.inl ⟨h.symm, by assumption⟩))
      | (injection h with h; exact Or.inr (Or.inr (Or.inl ⟨h.symm, by assumption⟩)))
      | (injection h with h; exact Or.inr (Or.inr (Or.inr (Or.inl ⟨h.symm, by assumption⟩))))
      | (injection h with h;
         exact Or.inr (Or.inr (Or.inr (Or.inr (Or.inl ⟨h.symm, by assumption⟩)))))
      | (injection h with h;
         exact Or.inr (Or.inr (Or.inr (Or.inr (Or.inr ⟨h.symm, by assumption⟩)))))

/-- No bucket matches exactly on the negative side, above 500.4, and inside
the five one-decimal gaps between consecutive buckets. -/
theorem findBreak_none_iff (u : ℚ) :
    findBreak _PM25_BREAKS u = none ↔
      (u < 0 ∨ 500.4 < u ∨ (12 < u ∧ u < 12.1) ∨ (35.4 < u ∧ u < 35.5) ∨
        (55.4 < u ∧ u < 55.5) ∨ (150.4 < u ∧ u < 150.5) ∨
        (250.4 < u ∧ u < 250.5)) := by
  simp only [_PM25_BREAKS, findBreak]
  split_ifs with h1 h2 h3 h4 h5 h6
  all_goals try
    (simp only [reduceCtorEq, false_iff]
     rintro (hg | hg | ⟨hg, hg2⟩ | ⟨hg, hg2⟩ | ⟨hg, hg2⟩ | ⟨hg, hg2⟩ | ⟨hg, hg2⟩) <;>
       first
         | (obtain ⟨hl, hr⟩ := h1; linarith)
         | (obtain ⟨hl, hr⟩ := h2; linarith)
         | (obtain ⟨hl, hr⟩ := h3; linarith)
         | (obtain ⟨hl, hr⟩ := h4; linarith)
         | (obtain ⟨hl, hr⟩ := h5; linarith)
         | (obtain ⟨hl, hr⟩ := h6; linarith))
  simp only [true_iff]
  push_neg at h1 h2 h3 h4 h5 h6
  rcases lt_or_le u 0 with hneg | h0
  · exact Or.inl hneg
  rcases lt_or_le u 12.1 with hu | hu
  · exact Or.inr (Or.inr (Or.inl ⟨h1 h0, hu⟩))
  rcases lt_or_le u 35.5 with hv | hv
  · exact Or.inr (Or.inr (Or.inr (Or.inl ⟨h2 hu, hv⟩)))
  rcases lt_or_le u 55.5 with hw | hw
  · exact Or.inr (Or.inr (Or.inr (Or.inr (Or.inl ⟨h3 hv, hw⟩))))
  rcases lt_or_le u 150.5 with hx | hx
  · exact Or.inr (Or.inr (Or.inr (Or.inr (Or.inr (Or.inl ⟨h4 hw, hx⟩)))))
  rcases lt_or_le u 250.5 with hy | hy
  · exact Or.inr (Or.inr (Or.inr (Or.inr (Or.inr (Or.inr ⟨h5 hx, hy⟩)))))
  exact Or.inr (Or.inl (h6 hy))

theorem pythonRound_eq_low {q : ℚ} {n : ℤ} (h1 : (n : ℚ) ≤ q) (h2 : q < (n : ℚ) + 1/2) :
    pythonRound q = n := by
  have hfl : ⌊q⌋ = n := by
    rw [Int.floor_eq_iff]
    push_cast
    constructor <;> linarith
  unfold pythonRound
  rw [hfl, if_pos (by push_cast; linarith)]

theorem pythonRound_eq_high {q : ℚ} {n : ℤ} (h1 : (n : ℚ) + 1/2 < q) (h2 : q < (n : ℚ) + 1) :
    pythonRound q = n + 1 := by
  have hfl : ⌊q⌋ = n := by
    rw [Int.floor_eq_iff]
    push_cast
    constructor <;> linarith
  unfold pythonRound
  rw [hfl, if_neg (by push_cast; linarith), if_pos (by push_cast; linarith)]

/-- Claim C8 (confirmed): `toAqi(600)` saturates to score 500 with the
hazardous label and class, and `toAqi` of a missing input returns a missing
score with the unknown label and unknown class. -/
theorem C8_saturation_and_missing_input :
    pm25_to_aqi (some 600) = (some 500, "خطِر", "aqi-hazardous") ∧
    pm25_to_aqi none = (none, "غير معروف", "aqi-unknown") := by
  constructor
  · have h : findBreak _PM25_BREAKS 600 = none :=
      (findBreak_none_iff 600).mpr (Or.inr (Or.inl (by norm_num)))
    simp [pm25_to_aqi, h]
  · rfl

/-- Claim C10 (confirmed): every strictly negative PM2.5 input matches no
bucket of the breakpoint table, so `pm25_to_aqi` returns the saturating
fallback: score 500 with the hazardous label and class. -/
theorem C10_negative_saturates_to_hazardous (u : ℚ) (hu : u < 0) :
    pm25_to_aqi (some u) = (some 500, "خطِر", "aqi-hazardous") := by
  have h : findBreak _PM25_BREAKS u = none := (findBreak_none_iff u).mpr (Or.inl hu)
  simp [pm25_to_aqi, h]

theorem C10_witness :
    pm25_to_aqi (some (-1 : ℚ)) = (some 500, "خطِر", "aqi-hazardous") :=
  C10_negative_saturates_to_hazardous (-1) (by norm_num)

/-- Claim C2 counterexample: 12.05 lies in [0, 500.4] yet matches no bucket
(the table jumps from 12.0 to 12.1), and the saturating fallback fires. -/
theorem C2_counterexample :
    (0 ≤ (12.05 : ℚ) ∧ (12.05 : ℚ) ≤ 500.4) ∧
    findBreak _PM25_BREAKS 12.05 = none ∧
    pm25_to_aqi (some (12.05 : ℚ)) = (some 500, "خطِر", "aqi-hazardous") := by
  have h : findBreak _PM25_BREAKS 12.05 = none :=
    (findBreak_none_iff _).mpr (by norm_num)
  exact ⟨by norm_num, h, by simp [pm25_to_aqi, h]⟩

/-- Claim C2 amended (proved): the breakpoint table covers [0, 500.4] except
for the five one-decimal gaps between consecutive buckets; the saturating
no-bucket fallback (score 500, hazardous) is reached exactly for inputs
strictly below 0, strictly above 500.4, or strictly inside one of the gaps
(12,12.1), (35.4,35.5), (55.4,55.5), (150.4,150.5), (250.4,250.5). -/
theorem C2_amended_coverage_with_gaps :
    ∀ u : ℚ,
      (findBreak _PM25_BREAKS u = none ↔
        (u < 0 ∨ 500.4 < u ∨ (12 < u ∧ u < 12.1) ∨ (35.4 < u ∧ u < 35.5) ∨
          (55.4 < u ∧ u < 55.5) ∨ (150.4 < u ∧ u < 150.5) ∨
          (250.4 < u ∧ u < 250.5))) ∧
      (findBreak _PM25_BREAKS u = none →
        pm25_to_aqi (some u) = (some 500, "خطِر", "aqi-hazardous")) := by
  intro u
  refine ⟨findBreak_none_iff u, fun h => ?_⟩
  simp [pm25_to_aqi, h]

theorem C2_amended_witness :
    findBreak _PM25_BREAKS (12.05 : ℚ) = none ∧
    pm25_to_aqi (some (12.05 : ℚ)) = (some 500, "خطِر", "aqi-hazardous") :=
  ⟨(C2_amended_coverage_with_gaps 12.05).1.mpr (by norm_num),
   (C2_amended_coverage_with_gaps 12.05).2
     ((C2_amended_coverage_with_gaps 12.05).1.mpr (by norm_num))⟩

/-- Claim C3 counterexample: 12.05 < 13 both lie in [0, 500.4], but the gap
input 12.05 scores 500 while 13 scores 53, so the AQI score is not monotone
on all of [0, 500.4]. -/
theorem C3_counterexample :
    (12.05 : ℚ) < 13 ∧ (0 : ℚ) ≤ 12.05 ∧ (13 : ℚ) ≤ 500.4 ∧
    (pm25_to_aqi (some (12.05 : ℚ))).1 = some 500 ∧
    (pm25_to_aqi (some (13 : ℚ))).1 = some 53 ∧
    ¬((500 : ℤ) ≤ 53) := by
  refine ⟨by norm_num, by norm_num, by norm_num, ?_, ?_, by norm_num⟩
  · have h : findBreak _PM25_BREAKS 12.05 = none :=
      (findBreak_none_iff _).mpr (by norm_num)
    simp [pm25_to_aqi, h]
  · have h : findBreak _PM25_BREAKS 13 =
        some ⟨12.1, 35.4, 51, 100, "متوسط", "aqi-moderate"⟩ := by
      simp only [_PM25_BREAKS, findBreak]
      rw [if_neg (by norm_num), if_pos (by norm_num)]
    have hv : linScore ⟨12.1, 35.4, 51, 100, "متوسط", "aqi-moderate"⟩ 13 = 12324/233 := by
      simp only [linScore]
      norm_num
    have hr : pythonRound (12324/233 : ℚ) = 53 := by
      have := pythonRound_eq_high (q := (12324/233 : ℚ)) (n := 52) (by norm_num) (by norm_num)
      simpa using this
    simp [pm25_to_aqi, h, hv, hr]

/-- Claim C3 amended (proved): the AQI score is monotone on all inputs that
fall inside some bucket of the breakpoint table (i.e. on [0, 500.4] minus
the five one-decimal gaps): for such `a ≤ b`, score(a) ≤ score(b). -/
theorem C3_amended_monotone_on_buckets :
    ∀ a b : ℚ, (findBreak _PM25_BREAKS a).isSome = true →
      (findBreak _PM25_BREAKS b).isSome = true → a ≤ b →
      (pm25_to_aqi (some a)).1.getD 0 ≤ (pm25_to_aqi (some b)).1.getD 0 := by
  intro a b ha hb hab
  obtain ⟨ba, hfa⟩ := Option.isSome_iff_exists.mp ha
  obtain ⟨bb, hfb⟩ := Option.isSome_iff_exists.mp hb
  simp only [pm25_to_aqi, hfa, hfb, Option.getD_some]
  rcases findBreak_char hfa with
      ⟨rfl, ha1, ha2⟩ | ⟨rfl, ha1, ha2⟩ | ⟨rfl, ha1, ha2⟩ | ⟨rfl, ha1, ha2⟩ |
      ⟨rfl, ha1, ha2⟩ | ⟨rfl, ha1, ha2⟩ <;>
    rcases findBreak_char hfb with
      ⟨rfl, hb1, hb2⟩ | ⟨rfl, hb1, hb2⟩ | ⟨rfl, hb1, hb2⟩ | ⟨rfl, hb1, hb2⟩ |
      ⟨rfl, hb1, hb2⟩ | ⟨rfl, hb1, hb2⟩ <;>
    · apply pythonRound_mono
      simp only [linScore]
      first
        | linarith
        | (norm_num; linarith)
        | nlinarith

theorem C3_amended_witness :
    (pm25_to_aqi (some (0 : ℚ))).1.getD 0 ≤ (pm25_to_aqi (some (1 : ℚ))).1.getD 0 :=
  C3_amended_monotone_on_buckets 0 1 (by norm_num [_PM25_BREAKS, findBreak])
    (by norm_num [_PM25_BREAKS, findBreak]) (by norm_num)

/-! ## Feature Builder (`add_time_features`, `add_lags_rolls`, `build_feature_view`)

The hourly series is modelled by its start hour `t0 : ℤ` (hours since the
epoch) and its target column `xs : List (Option ℚ)`; row `i` has timestamp
`t0 + i`.  The normalizer's other columns are gap-filled non-missing (claim
C5) and so never contribute to `dropna`; the derived features below depend
only on the timestamp and the target column, as in the source. -/

/-- Gregorian civil date `(year, month, day)` from a day count since
1970-01-01 (Howard Hinnant's `civil_from_days` algorithm); used for the
`month` calendar feature of `add_time_features`.  All intermediate
quantities divided with `/` are non-negative, so truncating division agrees
with floor division. -/
def civilFromDays (z0 : ℤ) : ℤ × ℤ × ℤ :=
  let z := z0 + 719468
  let era := z.fdiv 146097
  let doe := z - era * 146097
  let yoe := (doe - doe / 1460 + doe / 36524 - doe / 146096) / 1461
  let y := yoe + era * 400
  let doy := doe - (365 * yoe + yoe / 4 - yoe / 100)
  let mp := (5 * doy + 2) / 153
  let d := doy - (153 * mp + 2) / 5 + 1
  let m := mp + (if mp < 10 then 3 else -9)
  (if m ≤ 2 then y + 1 else y, m, d)

/-- The default `lags=(1,2,3,6,12,24)` of `add_lags_rolls`. -/
def defaultLags : List ℕ := [1, 2, 3, 6, 12, 24]

/-- The default `rolls=(3,6,12,24)` of `add_lags_rolls`. -/
def defaultRolls : List ℕ := [3, 6, 12, 24]

/-- `f[target].shift(L)` at row `i`: the target cell `L` rows earlier,
missing for the first `L` rows. -/
def lagCell (xs : List (Option ℚ)) (L : ℕ) (i : ℕ) : Option ℚ :=
  if L ≤ i then xs.getD (i - L) none else none

/-- The trailing window `rolling(w)` looks at when positioned on row `i`:
the last `min w (i+1)` of the first `i+1` rows. -/
def rollWindow (xs : List (Option ℚ)) (w : ℕ) (i : ℕ) : List (Option ℚ) :=
  (xs.take (i + 1)).drop (i + 1 - w)

/-- `rolling(w, min_periods=max(1, w//2)).mean()` at row `i`: the mean of
the non-missing values in the window, missing when fewer than
`max(1, w//2)` of them exist. -/
def rollMeanCell (xs : List (Option ℚ)) (w : ℕ) (i : ℕ) : Option ℚ :=
  let obs := (rollWindow xs w i).filterMap id
  if max 1 (w / 2) ≤ obs.length then some (obs.sum / obs.length) else none

/-- `rolling(w, min_periods=max(1, w//2)).std()` at row `i`.  pandas' sample
standard deviation is missing when the window holds fewer than `min_periods`
non-missing values and also (ddof=1) when it holds fewer than 2.  The cell
stores the sample variance; the source stores its square root, which is
defined on exactly the same rows, and downstream code only inspects
missingness (via `dropna`), never the value. -/
def rollStdCell (xs : List (Option ℚ)) (w : ℕ) (i : ℕ) : Option ℚ :=
  let obs := (rollWindow xs w i).filterMap id
  if max 1 (w / 2) ≤ obs.length ∧ 2 ≤ obs.length then
    some ((obs.map (fun x => (x - obs.sum / obs.length) ^ 2)).sum / (obs.length - 1))
  else none

/-- One row of the feature matrix built by `build_feature_view`: the calendar
features of `add_time_features`, the original target cell, and the lag /
rolling-mean / rolling-std cells of `add_lags_rolls` (one per configured lag
resp. window, in table order). -/
structure FeatureRow where
  ts : ℤ
  hour : ℤ
  dayofweek : ℤ
  month : ℤ
  is_weekend : ℤ
  target : Option ℚ
  lagF : List (Option ℚ)
  rollMeanF : List (Option ℚ)
  rollStdF : List (Option ℚ)

/-- Row `i` of `add_lags_rolls(add_time_features(frame), target)` for an
hourly series starting at hour `t0` with target column `xs`.  1970-01-01
(day 0) was a Thursday, i.e. 3 in pandas' Monday=0 convention. -/
def featureRow (t0 : ℤ) (xs : List (Option ℚ)) (lags rolls : List ℕ) (i : ℕ) : FeatureRow :=
  let t := t0 + i
  { ts := t
    hour := t.emod 24
    dayofweek := (t.fdiv 24 + 3).emod 7
    month := (civilFromDays (t.fdiv 24)).2.1
    is_weekend := if 5 ≤ (t.fdiv 24 + 3).emod 7 then 1 else 0
    target := xs.getD i none
    lagF := lags.map (fun L => lagCell xs L i)
    rollMeanF := rolls.map (fun w => rollMeanCell xs w i)
    rollStdF := rolls.map (fun w => rollStdCell xs w i) }

/-- `Xy.dropna()` keeps a row iff none of its cells is missing (the calendar
features are integers and never missing). -/
def validRow (r : FeatureRow) : Bool :=
  r.target.isSome && r.lagF.all Option.isSome && r.rollMeanF.all Option.isSome &&
    r.rollStdF.all Option.isSome

/-- `build_feature_view` of `src/app.py` on the hourly series `(t0, xs)`:
derived features with the default parameters, then `dropna`, plus the
feature-column names (every column except the target). -/
def build_feature_view (t0 : ℤ) (xs : List (Option ℚ)) : List FeatureRow × List String :=
  (((List.range xs.length).map (featureRow t0 xs defaultLags defaultRolls)).filter validRow,
   ["hour", "dayofweek", "month", "is_weekend"] ++
     defaultLags.map (fun L => "PM2.5_lag" ++ toString L) ++
     defaultRolls.map (fun w => "PM2.5_rollmean" ++ toString w) ++
     defaultRolls.map (fun w => "PM2.5_rollstd" ++ toString w))

theorem filterMap_id_length {l : List (Option ℚ)} (h : ∀ x ∈ l, x.isSome = true) :
    (l.filterMap id).length = l.length := by
  induction l with
  | nil => rfl
  | cons a l ih =>
    cases a with
    | none => exact absurd (h none (List.mem_cons_self _ _)) (by simp)
    | some v =>
      rw [show List.filterMap id (some v :: l) = v :: List.filterMap id l by simp]
      simp only [List.length_cons]
      rw [ih (fun x hx => h x (List.mem_cons_of_mem _ hx))]

theorem rollWindow_length {xs : List (Option ℚ)} {w i : ℕ} (hi : i < xs.length) :
    (rollWindow xs w i).length = min w (i + 1) := by
  simp only [rollWindow, List.length_drop, List.length_take]
  omega

theorem mem_of_mem_rollWindow {xs : List (Option ℚ)} {w i : ℕ} {x : Option ℚ}
    (hx : x ∈ rollWindow xs w i) : x ∈ xs :=
  ((List.drop_sublist _ _).trans (List.take_sublist _ _)).subset hx

theorem rollObs_length {xs : List (Option ℚ)} {w i : ℕ}
    (hall : ∀ x ∈ xs, x.isSome = true) (hi : i < xs.length) :
    ((rollWindow xs w i).filterMap id).length = min w (i + 1) := by
  rw [filterMap_id_length (fun x hx => hall x (mem_of_mem_rollWindow hx))]
  exact rollWindow_length hi

theorem getD_isSome_of_all {xs : List (Option ℚ)} {i : ℕ}
    (hall : ∀ x ∈ xs, x.isSome = true) (hi : i < xs.length) :
    (xs.getD i none).isSome = true := by
  rw [List.getD_eq_getElem?_getD, List.getElem?_eq_getElem hi]
  exact hall _ (List.getElem_mem hi)

theorem rollMeanCell_isSome {xs : List (Option ℚ)} {w i : ℕ}
    (hall : ∀ x ∈ xs, x.isSome = true) (hi : i < xs.length)
    (hmp : max 1 (w / 2) ≤ min w (i + 1)) :
    (rollMeanCell xs w i).isSome = true := by
  rw [rollMeanCell]
  rw [if_pos (by rw [rollObs_length hall hi]; exact hmp)]
  rfl

theorem rollStdCell_isSome {xs : List (Option ℚ)} {w i : ℕ}
    (hall : ∀ x ∈ xs, x.isSome = true) (hi : i < xs.length)
    (hmp : max 1 (w / 2) ≤ min w (i + 1)) (h2 : 2 ≤ min w (i + 1)) :
    (rollStdCell xs w i).isSome = true := by
  rw [rollStdCell]
  rw [if_pos (by rw [rollObs_length hall hi]; exact ⟨hmp, h2⟩)]
  rfl

theorem lagCell_isSome {xs : List (Option ℚ)} {L i : ℕ}
    (hall : ∀ x ∈ xs, x.isSome = true) (hi : i < xs.length) (hL : L ≤ i) :
    (lagCell xs L i).isSome = true := by
  rw [lagCell, if_pos hL]
  exact getD_isSome_of_all hall (by omega)

/-- With a fully observed target column, `dropna` keeps exactly the rows
with a complete largest-lag lookback: row `i` survives iff `24 ≤ i`. -/
theorem validRow_iff {t0 : ℤ} {xs : List (Option ℚ)} {i : ℕ}
    (hall : ∀ x ∈ xs, x.isSome = true) (hi : i < xs.length) :
    (validRow (featureRow t0 xs defaultLags defaultRolls i) = true) ↔ 24 ≤ i := by
  constructor
  · intro h
    by_contra hlt
    simp only [validRow, featureRow, defaultLags, defaultRolls, List.map_cons, List.map_nil,
      List.all_cons, List.all_nil, Bool.and_eq_true, and_true] at h
    have h24 : (lagCell xs 24 i).isSome = true := by tauto
    rw [lagCell, if_neg (by omega)] at h24
    simp at h24
  · intro h24
    simp only [validRow, featureRow, defaultLags, defaultRolls, List.map_cons, List.map_nil,
      List.all_cons, List.all_nil, Bool.and_eq_true, and_true]
    refine ⟨⟨⟨getD_isSome_of_all hall hi, ?_, ?_, ?_, ?_, ?_, ?_⟩, ?_, ?_, ?_, ?_⟩,
      ?_, ?_, ?_, ?_⟩
    · exact lagCell_isSome hall hi (by omega)
    · exact lagCell_isSome hall hi (by omega)
    · exact lagCell_isSome hall hi (by omega)
    · exact lagCell_isSome hall hi (by omega)
    · exact lagCell_isSome hall hi (by omega)
    · exact lagCell_isSome hall hi (by omega)
    all_goals first
      | (apply rollMeanCell_isSome hall hi; omega)
      | (apply rollStdCell_isSome hall hi <;> omega)

theorem range_filter_le_length (n k : ℕ) :
    ((List.range n).filter (fun i => decide (k ≤ i))).length = n - k := by
  induction n with
  | zero => simp
  | succ n ih =>
    rw [List.range_succ, List.filter_append, List.length_append, ih]
    by_cases h : k ≤ n
    · simp only [List.filter_cons, decide_eq_true_eq, if_pos h, List.filter_nil,
        List.length_cons, List.length_nil]
      omega
    · simp only [List.filter_cons, decide_eq_true_eq, if_neg h, List.filter_nil,
        List.length_nil]
      omega

/-- Claim C4 (confirmed): on a series of length `N ≥ 25` with a fully
observed target column, `build_feature_view` returns exactly `N - 24` rows:
`dropna` removes precisely the first `max(lags) = 24` warm-up rows (the
rolling means and stds are already defined there thanks to `min_periods`). -/
theorem C4_feature_warmup_count (t0 : ℤ) (xs : List (Option ℚ))
    (hall : ∀ x ∈ xs, x.isSome = true) (hlen : 25 ≤ xs.length) :
    (build_feature_view t0 xs).1.length = xs.length - 24 := by
  simp only [build_feature_view]
  rw [List.filter_map, List.length_map]
  have hcong : (List.range xs.length).filter
        (fun i => validRow (featureRow t0 xs defaultLags defaultRolls i)) =
      (List.range xs.length).filter (fun i => decide (24 ≤ i)) := by
    apply List.filter_congr
    intro i hi
    rw [List.mem_range] at hi
    rcases Nat.lt_or_ge i 24 with h | h
    · have hne : ¬ (24 ≤ i) := by omega
      rw [decide_eq_false hne, Bool.eq_false_iff]
      intro hvt
      exact hne ((validRow_iff hall hi).mp hvt)
    · rw [decide_eq_true h]
      exact (validRow_iff hall hi).mpr h
  rw [show (validRow ∘ featureRow t0 xs defaultLags defaultRolls) =
      (fun i => validRow (featureRow t0 xs defaultLags defaultRolls i)) from rfl]
  rw [hcong, range_filter_le_length]

theorem C4_witness :
    (build_feature_view 0 (List.replicate 25 (some (1 : ℚ)))).1.length = 25 - 24 :=
  C4_feature_warmup_count 0 _
    (by intro x hx; rw [List.eq_of_mem_replicate hx]; rfl) (by simp)

/-! ## Prediction handler (`api_predict`) -/

/-- The JSON payload returned by `api_predict` on success. -/
structure PredictResponse where
  next_hour_prediction_ugm3 : ℚ
  next_hour_prediction_aqi : Option ℤ
  aqi_category_text : String
  aqi_category_class : String
  last_timestamp : ℤ

/-- The request-level failure of `api_predict`.  In the source this is the
`IndexError` raised by `Xy_tmp[feats].iloc[[-1]]` when the feature view is
empty, which the serving framework turns into a failed (HTTP 500) response
without crashing the process — the spec's `DataUnavailableError`. -/
inductive ApiError where
  | dataUnavailable
deriving DecidableEq

/-- The `/api/predict` handler of `src/app.py` over the loaded hourly series
`(t0, xs)`; `model` is the opaque regression artifact (`model.predict` on the
last feature row). -/
def api_predict (t0 : ℤ) (xs : List (Option ℚ)) (model : FeatureRow → ℚ) :
    Except ApiError PredictResponse :=
  let fv := build_feature_view t0 xs
  match fv.1.getLast? with
  | none => .error .dataUnavailable
  | some row =>
    let y_hat := model row
    let a := pm25_to_aqi (some y_hat)
    .ok { next_hour_prediction_ugm3 := y_hat
          next_hour_prediction_aqi := a.1
          aqi_category_text := a.2.1
          aqi_category_class := a.2.2
          last_timestamp := t0 + xs.length - 1 }

theorem validRow_false_of_small (t0 : ℤ) (xs : List (Option ℚ)) {i : ℕ} (hi : i < 24) :
    validRow (featureRow t0 xs defaultLags defaultRolls i) = false := by
  rw [Bool.eq_false_iff]
  intro h
  simp only [validRow, featureRow, defaultLags, defaultRolls, List.map_cons, List.map_nil,
    List.all_cons, List.all_nil, Bool.and_eq_true, and_true] at h
  have h24 : (lagCell xs 24 i).isSome = true := by tauto
  rw [lagCell, if_neg (by omega)] at h24
  simp at h24

/-- Claim C1 (confirmed): whenever the feature builder yields zero valid
rows — in particular for every 10-row series, which is shorter than the
largest configured lag 24 — the predict handler fails with the per-request
data-unavailable error (the spec's `DataUnavailableError`; in the source an
`IndexError` surfaced as a failed request) instead of crashing or returning
a silent wrong answer. -/
theorem C1_predict_fails_without_valid_rows :
    (∀ (t0 : ℤ) (xs : List (Option ℚ)) (model : FeatureRow → ℚ),
        (build_feature_view t0 xs).1 = [] →
        api_predict t0 xs model = .error .dataUnavailable) ∧
    (∀ (t0 : ℤ) (xs : List (Option ℚ)) (model : FeatureRow → ℚ),
        xs.length = 10 →
        api_predict t0 xs model = .error .dataUnavailable) := by
  constructor
  · intro t0 xs model h
    simp only [api_predict, h, List.getLast?_nil]
  · intro t0 xs model hlen
    have hempty : (build_feature_view t0 xs).1 = [] := by
      simp only [build_feature_view]
      rw [List.filter_eq_nil_iff]
      intro r hr
      rw [List.mem_map] at hr
      obtain ⟨i, hi, rfl⟩ := hr
      rw [List.mem_range, hlen] at hi
      rw [validRow_false_of_small t0 xs (by omega)]
      simp
    simp only [api_predict, hempty, List.getLast?_nil]

theorem C1_witness :
    api_predict 0 (List.replicate 10 (some (1 : ℚ))) (fun _ => 0) =
      .error .dataUnavailable :=
  C1_predict_fails_without_valid_rows.2 0 _ _ (by simp)

/-! ## Time-Series Normalizer (module-level pipeline, `src/app.py` lines 26-50)

A raw record is `(timestamp?, target cell)` with the timestamp in minutes
since the epoch (`none` = unparseable).  The pipeline is modelled on the
single numeric target column; the source applies the same per-column
aggregation and gap-fill independently to every numeric column, and `sort_values`
is not modelled because the mean aggregation is order-insensitive. -/

/-- Forward-fill scan: each missing cell becomes the nearest earlier
non-missing value carried in the accumulator. -/
def ffillAux : Option ℚ → List (Option ℚ) → List (Option ℚ)
  | _, [] => []
  | carry, none :: rest => carry :: ffillAux carry rest
  | _, some v :: rest => some v :: ffillAux (some v) rest

/-- `.fillna(method="ffill")`. -/
def ffill (l : List (Option ℚ)) : List (Option ℚ) := ffillAux none l

/-- `.fillna(method="bfill")`: a forward fill of the reversed column. -/
def bfill (l : List (Option ℚ)) : List (Option ℚ) := (ffillAux none l.reverse).reverse

/-- Position and value of the first non-missing cell of a column. -/
def firstValid : List (Option ℚ) → Option (ℕ × ℚ)
  | [] => none
  | some v :: _ => some (0, v)
  | none :: rest => (firstValid rest).map (fun p => (p.1 + 1, p.2))

/-- Position and value of the last non-missing cell of a column. -/
def lastValid (l : List (Option ℚ)) : Option (ℕ × ℚ) :=
  (firstValid l.reverse).map (fun p => (l.length - 1 - p.1, p.2))

/-- `.interpolate(method="time", limit_direction="both")` at position `i` of
a column living on the contiguous hourly grid (so time weights equal index
distances): linear interpolation between the surrounding valid cells;
beyond the first/last valid cell numpy's `interp` clamps to the edge value
and `limit_direction="both"` keeps those fills. -/
def interpCell (xs : List (Option ℚ)) (i : ℕ) : Option ℚ :=
  match xs.getD i none with
  | some v => some v
  | none =>
    match lastValid (xs.take i), firstValid (xs.drop (i + 1)) with
    | some jp, some kp =>
        some (jp.2 + (kp.2 - jp.2) *
          (((i : ℚ) - (jp.1 : ℚ)) / (((i : ℚ) + 1 + (kp.1 : ℚ)) - (jp.1 : ℚ))))
    | some jp, none => some jp.2
    | none, some kp => some kp.2
    | none, none => none

/-- Column-wise `.interpolate(method="time", limit_direction="both")`. -/
def interpolate_time (xs : List (Option ℚ)) : List (Option ℚ) :=
  (List.range xs.length).map (interpCell xs)

/-- The numeric gap-fill of the normalizer:
`interpolate(time, both)` then `ffill` then `bfill`. -/
def gapFillNum (xs : List (Option ℚ)) : List (Option ℚ) :=
  bfill (ffill (interpolate_time xs))

/-- An Hourly Series: the hour-floored timestamp index together with the
target column, as parallel lists (`vals[i]` is the cell at `index[i]`). -/
structure HourlySeries where
  index : List ℤ
  vals : List (Option ℚ)
deriving DecidableEq

/-- `pd.to_datetime(..., errors="coerce")` followed by
`dropna(subset=[TIME_COL])`: keep exactly the rows whose timestamp parses. -/
def parseRows (rows : List (Option ℤ × Option ℚ)) : List (ℤ × Option ℚ) :=
  rows.filterMap (fun r => r.1.map (fun t => (t, r.2)))

/-- `.dt.floor("h")` on a timestamp in minutes since the epoch. -/
def floorHour (t : ℤ) : ℤ := t.fdiv 60

/-- Parsed rows with hour-floored timestamps. -/
def flooredRows (rows : List (Option ℤ × Option ℚ)) : List (ℤ × Option ℚ) :=
  (parseRows rows).map (fun p => (floorHour p.1, p.2))

/-- The hour keys of the parsed, floored rows. -/
def hoursOf (rows : List (Option ℤ × Option ℚ)) : List ℤ :=
  (flooredRows rows).map Prod.fst

/-- `groupby(TIME_COL).agg("mean")` for one group: pandas' mean over the
non-missing values of the group, missing when there are none. -/
def groupMean (vs : List (Option ℚ)) : Option ℚ :=
  let obs := vs.filterMap id
  if obs.length = 0 then none else some (obs.sum / obs.length)

/-- The module-level normalization pipeline of `src/app.py`: parse
timestamps dropping failures, floor to the hour, aggregate duplicate hours
by mean, reindex onto the complete hourly grid `date_range(min, max, "h")`,
and gap-fill the numeric column.  `none` models the startup failure on an
empty parsed table (`date_range` on `NaT`). -/
def normalizeHourly (rows : List (Option ℤ × Option ℚ)) : Option HourlySeries :=
  let fl := flooredRows rows
  match (fl.map Prod.fst).min?, (fl.map Prod.fst).max? with
  | some hmin, some hmax =>
    let n := (hmax - hmin).toNat + 1
    let idx := (List.range n).map (fun (i : ℕ) => hmin + (i : ℤ))
    let raw := idx.map (fun h => groupMean ((fl.filter (fun q => q.1 = h)).map Prod.snd))
    some ⟨idx, gapFillNum raw⟩
  | _, _ => none

instance : Std.Antisymm (fun (a b : ℤ) => a ≤ b) :=
  ⟨fun h h' => le_antisymm h h'⟩

theorem int_min?_eq_some_iff {l : List ℤ} {a : ℤ} :
    l.min? = some a ↔ a ∈ l ∧ ∀ b ∈ l, a ≤ b :=
  List.min?_eq_some_iff (fun a => le_refl a) (fun a b => min_choice a b)
    (fun _ _ _ => le_min_iff)

theorem int_max?_eq_some_iff {l : List ℤ} {a : ℤ} :
    l.max? = some a ↔ a ∈ l ∧ ∀ b ∈ l, b ≤ a :=
  List.max?_eq_some_iff (fun a => le_refl a) (fun a b => max_choice a b)
    (fun _ _ _ => max_le_iff)

theorem firstValid_eq_none {l : List (Option ℚ)} (h : firstValid l = none) :
    ∀ x ∈ l, x = none := by
  induction l with
  | nil => simp
  | cons a l ih =>
    cases a with
    | some v => simp [firstValid] at h
    | none =>
      intro x hx
      rcases List.mem_cons.mp hx with rfl | hx
      · rfl
      · refine ih ?_ x hx
        rw [firstValid] at h
        exact Option.map_eq_none'.mp h

theorem lastValid_eq_none {l : List (Option ℚ)} (h : lastValid l = none) :
    ∀ x ∈ l, x = none := by
  intro x hx
  rw [lastValid] at h
  exact firstValid_eq_none (Option.map_eq_none'.mp h) x (List.mem_reverse.mpr hx)

theorem interpCell_isSome {xs : List (Option ℚ)} (i : ℕ)
    (h : ∃ x ∈ xs, x.isSome = true) : (interpCell xs i).isSome = true := by
  obtain ⟨x, hx, hxs⟩ := h
  obtain ⟨j, hj, rfl⟩ := List.mem_iff_getElem.mp hx
  rw [interpCell]
  cases hget : xs.getD i none with
  | some v => rfl
  | none =>
    have hji : j ≠ i := by
      intro hji
      subst hji
      rw [List.getD_eq_getElem?_getD, List.getElem?_eq_getElem hj] at hget
      simp only [Option.getD_some] at hget
      rw [hget] at hxs
      simp at hxs
    rcases Nat.lt_or_ge j i with hlt | hge
    · have hmem : xs[j] ∈ xs.take i := by
        have hb : j < (xs.take i).length := by
          simp only [List.length_take]
          omega
        have he : (xs.take i)[j] = xs[j] := List.getElem_take xs
        rw [← he]
        exact List.getElem_mem hb
      have hlv : lastValid (xs.take i) ≠ none := by
        intro hnone
        have hz := lastValid_eq_none hnone _ hmem
        rw [hz] at hxs
        simp at hxs
      cases hl : lastValid (xs.take i) with
      | none => exact absurd hl hlv
      | some jp => cases hf : firstValid (xs.drop (i + 1)) <;> rfl
    · have hgt : i < j := by omega
      have hb : j - (i + 1) < (xs.drop (i + 1)).length := by
        simp only [List.length_drop]
        omega
      have hmem : xs[j] ∈ xs.drop (i + 1) := by
        refine List.mem_iff_getElem.mpr ⟨j - (i + 1), hb, ?_⟩
        rw [List.getElem_drop]
        congr 1
        omega
      have hfv : firstValid (xs.drop (i + 1)) ≠ none := by
        intro hnone
        have hz := firstValid_eq_none hnone _ hmem
        rw [hz] at hxs
        simp at hxs
      cases hf : firstValid (xs.drop (i + 1)) with
      | none => exact absurd hf hfv
      | some kp => cases hl : lastValid (xs.take i) <;> rfl

theorem ffillAux_of_all_some {l : List (Option ℚ)} (c : Option ℚ)
    (h : ∀ x ∈ l, x.isSome = true) : ffillAux c l = l := by
  induction l generalizing c with
  | nil => rfl
  | cons a l ih =>
    cases a with
    | none => exact absurd (h none (List.mem_cons_self _ _)) (by simp)
    | some v =>
      rw [ffillAux]
      rw [ih (some v) (fun x hx => h x (List.mem_cons_of_mem _ hx))]

theorem interpolate_time_of_all_some {l : List (Option ℚ)}
    (h : ∀ x ∈ l, x.isSome = true) : interpolate_time l = l := by
  apply List.ext_getElem
  · simp [interpolate_time]
  · intro i h1 h2
    simp only [interpolate_time, List.getElem_map, List.getElem_range]
    rw [interpCell]
    have hgd : l.getD i none = l[i] := by
      rw [List.getD_eq_getElem?_getD, List.getElem?_eq_getElem h2]
      rfl
    rw [hgd]
    cases hx : l[i] with
    | none =>
      have := h _ (List.getElem_mem h2)
      rw [hx] at this
      simp at this
    | some v => rfl

theorem gapFillNum_of_all_some {l : List (Option ℚ)}
    (h : ∀ x ∈ l, x.isSome = true) : gapFillNum l = l := by
  rw [gapFillNum, interpolate_time_of_all_some h, ffill, ffillAux_of_all_some none h,
    bfill, ffillAux_of_all_some none (fun x hx => h x (List.mem_reverse.mp hx)),
    List.reverse_reverse]

/-- Claim C5 (confirmed): when the column holds at least one observed value,
the normalizer's gap-fill (time interpolation with both-ends fill, then
forward fill, then backward fill) leaves no missing numeric cell. -/
theorem C5_gap_fill_no_missing (xs : List (Option ℚ))
    (h : xs.any Option.isSome = true) :
    (gapFillNum xs).all Option.isSome = true := by
  have hex : ∃ x ∈ xs, x.isSome = true := by
    simpa using h
  have hint : ∀ y ∈ interpolate_time xs, y.isSome = true := by
    intro y hy
    rw [interpolate_time, List.mem_map] at hy
    obtain ⟨i, hi, rfl⟩ := hy
    exact interpCell_isSome i hex
  rw [gapFillNum, ffill, ffillAux_of_all_some none hint, bfill,
    ffillAux_of_all_some none (fun x hx => hint x (List.mem_reverse.mp hx)),
    List.reverse_reverse]
  rw [List.all_eq_true]
  exact hint

theorem C5_witness :
    (gapFillNum [none, some (1 : ℚ), none]).all Option.isSome = true :=
  C5_gap_fill_no_missing [none, some (1 : ℚ), none] (by decide)

/-- Claim C6 (confirmed): every Hourly Series the normalizer constructs has
a duplicate-free timestamp index advancing by exactly one hour per row, whose
first and last entries are the minimum resp. maximum observed hour, and which
contains every hour in between (missing hours are inserted). -/
theorem C6_contiguous_hourly_index :
    ∀ (rows : List (Option ℤ × Option ℚ)) (S : HourlySeries),
      normalizeHourly rows = some S →
      S.index.Nodup ∧
      (∀ i : ℕ, i + 1 < S.index.length →
        S.index.getD (i + 1) 0 = S.index.getD i 0 + 1) ∧
      (∃ hmin hmax : ℤ, hmin ∈ hoursOf rows ∧ hmax ∈ hoursOf rows ∧
        (∀ h ∈ hoursOf rows, hmin ≤ h ∧ h ≤ hmax) ∧
        S.index.head? = some hmin ∧ S.index.getLast? = some hmax ∧
        (∀ h : ℤ, hmin ≤ h → h ≤ hmax → h ∈ S.index)) := by
  intro rows S hS
  cases hm : ((flooredRows rows).map Prod.fst).min? with
  | none =>
    rw [normalizeHourly] at hS
    rw [hm] at hS
    cases hS
  | some hmin =>
    cases hM : ((flooredRows rows).map Prod.fst).max? with
    | none =>
      rw [normalizeHourly] at hS
      rw [hm, hM] at hS
      cases hS
    | some hmax =>
      rw [normalizeHourly] at hS
      rw [hm, hM, Option.some.injEq] at hS
      rw [int_min?_eq_some_iff] at hm
      rw [int_max?_eq_some_iff] at hM
      have hmM : hmin ≤ hmax := hm.2 hmax hM.1
      subst hS
      have hlen : ((List.range ((hmax - hmin).toNat + 1)).map
          (fun (i : ℕ) => hmin + (i : ℤ))).length = (hmax - hmin).toNat + 1 := by
        rw [List.length_map, List.length_range]
      refine ⟨?_, ?_, hmin, hmax, hm.1, hM.1,
        fun h hh => ⟨hm.2 h hh, hM.2 h hh⟩, ?_, ?_, ?_⟩
      · refine (List.nodup_range _).map ?_
        intro a b hab
        have := add_left_cancel hab
        exact_mod_cast this
      · intro i hi
        rw [hlen] at hi
        rw [List.getD_eq_getElem?_getD, List.getD_eq_getElem?_getD,
          List.getElem?_map, List.getElem?_map,
          List.getElem?_range (by omega : i + 1 < (hmax - hmin).toNat + 1),
          List.getElem?_range (by omega : i < (hmax - hmin).toNat + 1)]
        simp only [Option.map_some', Option.getD_some]
        push_cast
        ring
      · rw [List.head?_eq_getElem?, List.getElem?_map,
          List.getElem?_range (by omega : 0 < (hmax - hmin).toNat + 1)]
        simp
      · rw [List.getLast?_eq_getElem?, hlen]
        rw [List.getElem?_map,
          List.getElem?_range (by omega : (hmax - hmin).toNat + 1 - 1 < (hmax - hmin).toNat + 1)]
        simp only [Option.map_some', Option.some.injEq]
        omega
      · intro h h1 h2
        rw [List.mem_map]
        refine ⟨(h - hmin).toNat, List.mem_range.mpr (by omega), by omega⟩

theorem C6_witness :
    (⟨[1, 2, 3], [none, none, none]⟩ : HourlySeries).index.Nodup ∧
    (∀ i : ℕ, i + 1 < (⟨[1, 2, 3], [none, none, none]⟩ : HourlySeries).index.length →
      (⟨[1, 2, 3], [none, none, none]⟩ : HourlySeries).index.getD (i + 1) 0 =
        (⟨[1, 2, 3], [none, none, none]⟩ : HourlySeries).index.getD i 0 + 1) ∧
    (∃ hmin hmax : ℤ,
      hmin ∈ hoursOf [(some 60, none), (some 185, none)] ∧
      hmax ∈ hoursOf [(some 60, none), (some 185, none)] ∧
      (∀ h ∈ hoursOf [(some 60, none), (some 185, none)], hmin ≤ h ∧ h ≤ hmax) ∧
      (⟨[1, 2, 3], [none, none, none]⟩ : HourlySeries).index.head? = some hmin ∧
      (⟨[1, 2, 3], [none, none, none]⟩ : HourlySeries).index.getLast? = some hmax ∧
      (∀ h : ℤ, hmin ≤ h → h ≤ hmax →
        h ∈ (⟨[1, 2, 3], [none, none, none]⟩ : HourlySeries).index)) :=
  C6_contiguous_hourly_index [(some 60, none), (some 185, none)]
    ⟨[1, 2, 3], [none, none, none]⟩ (by decide)

/-! ## Startup time-column detection (`src/app.py` lines 21-23) -/

/-- Python's `str.lower()`, character-wise case folding (the involved
column names are ASCII). -/
def lowerName (s : String) : String := String.mk (s.data.map Char.toLower)

/-- The candidate list
`[c for c in df.columns if c.lower() in ["timestamp","datetime","date","time"]]`. -/
def timeColCandidates (cols : List String) : List String :=
  cols.filter (fun c => ["timestamp", "datetime", "date", "time"].contains (lowerName c))

/-- `TIME_COL = time_col_candidates[0]` guarded by the startup
`assert time_col_candidates`: the first matching column, or the fatal
configuration error (the process never reaches the serving code). -/
def detectTimeCol (cols : List String) : Except String String :=
  match timeColCandidates cols with
  | [] => .error "No datetime column found. Rename your time column or add it."
  | c :: _ => .ok c

theorem head_filter_eq_find (p : String → Bool) (l : List String) :
    (l.filter p).head? = l.find? p := by
  induction l with
  | nil => rfl
  | cons a l ih =>
    by_cases h : p a <;> simp [List.filter_cons, List.find?_cons, h, ih]

/-- Claim C9 (confirmed): startup selects the first column whose
lower-cased name is one of timestamp/datetime/date/time, and when no column
matches it fails with the fatal startup configuration error (the source's
`assert`, which aborts the module import before any route is served). -/
theorem C9_time_column_detection :
    (∀ cols : List String,
      (∃ e, detectTimeCol cols = .error e) ↔
        ∀ c ∈ cols, (["timestamp", "datetime", "date", "time"].contains (lowerName c)) = false) ∧
    (∀ (cols : List String) (c : String),
      detectTimeCol cols = .ok c ↔
        cols.find? (fun s => ["timestamp", "datetime", "date", "time"].contains (lowerName s)) =
          some c) := by
  constructor
  · intro cols
    constructor
    · rintro ⟨e, he⟩
      cases hc : timeColCandidates cols with
      | nil =>
        intro c hcm
        have h2 := List.filter_eq_nil_iff.mp hc c hcm
        exact Bool.eq_false_iff.mpr h2
      | cons a as =>
        rw [detectTimeCol, hc] at he
        cases he
    · intro hall
      have hc : timeColCandidates cols = [] := by
        rw [timeColCandidates, List.filter_eq_nil_iff]
        intro a ha
        rw [hall a ha]
        simp
      exact ⟨_, by rw [detectTimeCol, hc]⟩
  · intro cols c
    constructor
    · intro h
      cases hc : timeColCandidates cols with
      | nil =>
        rw [detectTimeCol, hc] at h
        cases h
      | cons a as =>
        rw [detectTimeCol, hc] at h
        injection h with h
        subst h
        rw [← head_filter_eq_find]
        have : timeColCandidates cols = cols.filter
            (fun s => ["timestamp", "datetime", "date", "time"].contains (lowerName s)) := rfl
        rw [← this, hc]
        rfl
    · intro h
      rw [← head_filter_eq_find] at h
      have h' : (timeColCandidates cols).head? = some c := h
      cases hc : timeColCandidates cols with
      | nil =>
        rw [hc] at h'
        cases h'
      | cons a as =>
        rw [hc] at h'
        injection h' with h'
        rw [detectTimeCol, hc, h']

theorem C9_witness :
    detectTimeCol ["pm25", "Date", "time"] = .ok "Date" :=
  (C9_time_column_detection.2 ["pm25", "Date", "time"] "Date").mpr (by decide)

/-! ## Normalizer idempotence (claim C7) -/

/-- The contiguous hourly index starting at `h0` with `n` entries. -/
def hourIdx (h0 : ℤ) (n : ℕ) : List ℤ :=
  (List.range n).map (fun (i : ℕ) => h0 + (i : ℤ))

/-- Render an Hourly Series back into a raw record table: one row per hour,
with the timestamp in hour-aligned minutes. -/
def rawOfSeries (S : HourlySeries) : List (Option ℤ × Option ℚ) :=
  (S.index.zip S.vals).map (fun p => (some (60 * p.1), p.2))

theorem parseRows_rawOfSeries (S : HourlySeries) :
    parseRows (rawOfSeries S) = (S.index.zip S.vals).map (fun p => (60 * p.1, p.2)) := by
  rw [parseRows, rawOfSeries, List.filterMap_map]
  rw [show ((fun r : Option ℤ × Option ℚ => r.1.map (fun t => (t, r.2))) ∘
      (fun p : ℤ × Option ℚ => (some (60 * p.1), p.2))) =
      (some ∘ (fun p : ℤ × Option ℚ => (60 * p.1, p.2))) from rfl]
  rw [List.filterMap_eq_map]

theorem floored_rawOfSeries (S : HourlySeries) :
    flooredRows (rawOfSeries S) = S.index.zip S.vals := by
  rw [flooredRows, parseRows_rawOfSeries, List.map_map]
  have h1 : ((fun p : ℤ × Option ℚ => (floorHour p.1, p.2)) ∘
      (fun p : ℤ × Option ℚ => (60 * p.1, p.2))) =
      fun p : ℤ × Option ℚ => (floorHour (60 * p.1), p.2) := rfl
  rw [h1]
  have h2 : (fun p : ℤ × Option ℚ => (floorHour (60 * p.1), p.2)) =
      fun p : ℤ × Option ℚ => p := by
    funext p
    simp [floorHour, Int.mul_fdiv_cancel_left]
  rw [h2]
  exact List.map_id' _

theorem zip_hourIdx (h0 : ℤ) (vs : List ℚ) :
    (hourIdx h0 vs.length).zip (vs.map some) =
      (List.range vs.length).map (fun (i : ℕ) => (h0 + (i : ℤ), some (vs.getD i 0))) := by
  apply List.ext_getElem
  · simp [hourIdx]
  · intro i h1 h2
    have hzl : i < ((hourIdx h0 vs.length).zip (vs.map some)).length := h1
    have hi : i < vs.length := by
      simp only [List.length_zip, List.length_map, List.length_range, hourIdx] at h1
      omega
    rw [List.getElem_zip]
    simp only [hourIdx, List.getElem_map, List.getElem_range]
    rw [List.getD_eq_getElem?_getD, List.getElem?_eq_getElem hi]
    rfl

theorem range_filter_eq_single {n i : ℕ} (hi : i < n) :
    (List.range n).filter (fun j => decide (j = i)) = [i] := by
  induction n with
  | zero => omega
  | succ n ih =>
    rw [List.range_succ, List.filter_append]
    rcases Nat.lt_or_ge i n with h | h
    · rw [ih h]
      have hz : List.filter (fun j => decide (j = i)) [n] = [] := by
        simp only [List.filter_cons, List.filter_nil, decide_eq_true_eq]
        rw [if_neg (by omega)]
      rw [hz, List.append_nil]
    · have hin : i = n := by omega
      subst hin
      have h1 : (List.range i).filter (fun j => decide (j = i)) = [] := by
        rw [List.filter_eq_nil_iff]
        intro a ha
        rw [List.mem_range] at ha
        simp only [decide_eq_true_eq]
        omega
      rw [h1, List.nil_append]
      simp

theorem filter_rangeMap_key {h0 : ℤ} {vs : List ℚ} {i : ℕ} (hi : i < vs.length) :
    ((List.range vs.length).map (fun (j : ℕ) => (h0 + (j : ℤ), some (vs.getD j 0)))).filter
        (fun q => q.1 = h0 + (i : ℤ)) =
      [(h0 + (i : ℤ), some (vs.getD i 0))] := by
  rw [List.filter_map]
  rw [show ((fun q : ℤ × Option ℚ => decide (q.1 = h0 + (i : ℤ))) ∘
      (fun (j : ℕ) => (h0 + (j : ℤ), some (vs.getD j 0)))) =
      fun (j : ℕ) => decide (h0 + (j : ℤ) = h0 + (i : ℤ)) from rfl]
  have hc : (List.range vs.length).filter
        (fun (j : ℕ) => decide (h0 + (j : ℤ) = h0 + (i : ℤ))) =
      (List.range vs.length).filter (fun j => decide (j = i)) := by
    apply List.filter_congr
    intro j hj
    rw [decide_eq_decide]
    omega
  rw [hc, range_filter_eq_single hi, List.map_cons, List.map_nil]

theorem hourIdx_min? {h0 : ℤ} {n : ℕ} (hn : 0 < n) :
    ((List.range n).map (fun (i : ℕ) => h0 + (i : ℤ))).min? = some h0 := by
  rw [int_min?_eq_some_iff]
  constructor
  · rw [List.mem_map]
    exact ⟨0, List.mem_range.mpr hn, by simp⟩
  · intro b hb
    rw [List.mem_map] at hb
    obtain ⟨i, _, rfl⟩ := hb
    omega

theorem hourIdx_max? {h0 : ℤ} {n : ℕ} (hn : 0 < n) :
    ((List.range n).map (fun (i : ℕ) => h0 + (i : ℤ))).max? =
      some (h0 + ((n - 1 : ℕ) : ℤ)) := by
  rw [int_max?_eq_some_iff]
  constructor
  · rw [List.mem_map]
    exact ⟨n - 1, List.mem_range.mpr (by omega), rfl⟩
  · intro b hb
    rw [List.mem_map] at hb
    obtain ⟨i, hi, rfl⟩ := hb
    rw [List.mem_range] at hi
    omega

/-- Claim C7 (confirmed): normalizing a table that already is a valid Hourly
Series — hour-aligned timestamps, contiguous, no duplicates, no missing
values — returns that series unchanged: parsing keeps every row, flooring
is the identity, each hour's group is the singleton whose mean is its own
value, the rebuilt index is the original one, and the gap-fill is the
identity on a fully observed column. -/
theorem C7_normalizer_idempotent (h0 : ℤ) (vs : List ℚ) (hne : vs ≠ []) :
    normalizeHourly (rawOfSeries ⟨hourIdx h0 vs.length, vs.map some⟩) =
      some ⟨hourIdx h0 vs.length, vs.map some⟩ := by
  have hn : 0 < vs.length := List.length_pos.mpr hne
  have hfl : flooredRows (rawOfSeries ⟨hourIdx h0 vs.length, vs.map some⟩) =
      (List.range vs.length).map (fun (i : ℕ) => (h0 + (i : ℤ), some (vs.getD i 0))) := by
    rw [floored_rawOfSeries]
    exact zip_hourIdx h0 vs
  have hfst : ((List.range vs.length).map
        (fun (i : ℕ) => (h0 + (i : ℤ), some (vs.getD i 0)))).map Prod.fst =
      (List.range vs.length).map (fun (i : ℕ) => h0 + (i : ℤ)) := by
    rw [List.map_map]
    rfl
  simp only [normalizeHourly, hfl, hfst, hourIdx_min? hn, hourIdx_max? hn]
  have hcnt : ((h0 + ((vs.length - 1 : ℕ) : ℤ)) - h0).toNat + 1 = vs.length := by
    omega
  rw [hcnt]
  simp only [Option.some.injEq, HourlySeries.mk.injEq]
  refine ⟨rfl, ?_⟩
  have hraw : ((List.range vs.length).map (fun (i : ℕ) => h0 + (i : ℤ))).map
        (fun h => groupMean ((((List.range vs.length).map
          (fun (i : ℕ) => (h0 + (i : ℤ), some (vs.getD i 0)))).filter
            (fun q => q.1 = h)).map Prod.snd)) =
      vs.map some := by
    apply List.ext_getElem
    · simp
    · intro i h1 h2
      have hi : i < vs.length := by
        simpa using h2
      simp only [List.getElem_map, List.getElem_range]
      rw [filter_rangeMap_key hi]
      simp only [List.map_cons, List.map_nil]
      rw [List.getD_eq_getElem?_getD, List.getElem?_eq_getElem hi]
      simp [groupMean]
  rw [hraw]
  exact gapFillNum_of_all_some (by
    intro x hx
    rw [List.mem_map] at hx
    obtain ⟨v, _, rfl⟩ := hx
    rfl)

theorem C7_witness :
    normalizeHourly (rawOfSeries ⟨hourIdx 0 1, [(5 : ℚ)].map some⟩) =
      some ⟨hourIdx 0 1, [(5 : ℚ)].map some⟩ :=
  C7_normalizer_idempotent 0 [5] (by simp)
